import Mathlib

/-!
# Entities: run loop and memory subsystem — a shallow embedding

A Lean embedding of the core of the `entities` agent system: the two-tier
memory store (`Memory`), the tool registry and dispatch (`ToolSpec`), the
entity run loop and wake/sleep state machine (`Entity.run`,
`Entity.checkWakeup`), and the scheduler's process-local concurrency guard
(`scanOne`, `runSettle`).

Conventions of the embedding:
* Timestamps are epoch milliseconds as `Int`.  The JS `Record<string, T>`
  keyed by `toISOString()` is embedded as an association list
  `List (Int × T)` with JS-object insert semantics (`mapInsert`): writing
  an existing key replaces the value in place, a new key is appended —
  exactly the iteration-order behavior of a JS object with string keys.
* `await sleep(10)` inside `Memory.add` is modelled by advancing the
  explicit clock `now` by 10 at the corresponding points of the callers.
* The language-model backend is an oracle: the run loop consumes a script
  of `ModelResponse`s, and the summarizer used by `enshrine` is an
  `Option String` (`none` embeds a null `content` field; the JS falsiness
  test `!content` also catches the empty string).
* Asynchronous effects that matter to the claims are recorded in an
  explicit `Event` trace, in the order the statements of the source
  execute.
* An absent `tool_calls` field on a response message is embedded as the
  empty list.
-/

deriving instance DecidableEq for Except

namespace Entities

/-- Chat roles of the OpenAI message shapes the source stores. -/
inductive Role
  | system
  | user
  | assistant
  | tool
deriving DecidableEq, Repr

/-- A stored chat message: role, content, and the optional tool-call id a
tool-role result message carries. -/
structure ChatMsg where
  role : Role
  content : String
  tool_call_id : Option String := none
deriving DecidableEq, Repr

/-- One requested tool invocation from a model response
(`response.choices[0].message.tool_calls[i]`).  `argUntil` is the parsed
`until` argument (epoch millis), the only argument the built-in sleep tool
reads. -/
structure ToolCall where
  id : String
  name : String
  argUntil : Int := 0
deriving DecidableEq, Repr

/-- One backend completion: the assistant message plus its requested tool
invocations (empty list = absent `tool_calls` field). -/
structure ModelResponse where
  message : ChatMsg
  tool_calls : List ToolCall := []
deriving DecidableEq, Repr

/-- JS-object insertion into an association list: an existing key is
overwritten in place (the earlier value is lost), a fresh key is appended
at the end.  This is the semantics of `this.messages[key] = message` on a
`Record<string, T>` with ISO-string keys. -/
def mapInsert {T : Type} (k : Int) (v : T) : List (Int × T) → List (Int × T)
  | [] => [(k, v)]
  | (k₁, v₁) :: rest =>
      if k₁ = k then (k, v) :: rest else (k₁, v₁) :: mapInsert k v rest

/-- `Memory<T>`: one tier of the two-tier store.  `messages` embeds the
timestamp-keyed record, `model` the summarizer model id, `timeOffset` the
simulated-time shift in minutes. -/
structure Memory (T : Type) where
  messages : List (Int × T)
  model : String
  timeOffset : Int := 0
deriving DecidableEq, Repr

/-- `Memory.getCurrentTime`: `Date.now() + timeOffset * 60 * 1000`. -/
def Memory.getCurrentTime {T : Type} (m : Memory T) (now : Int) : Int :=
  now + m.timeOffset * 60000

/-- `Memory.add`: `this.messages[this.getCurrentTime().toISOString()] = message`.
The trailing `await sleep(10)` is modelled by the caller advancing `now`. -/
def Memory.add {T : Type} (m : Memory T) (now : Int) (msg : T) : Memory T :=
  { m with messages := mapInsert (m.getCurrentTime now) msg m.messages }

/-- `Memory.clear`: `this.messages = {}`. -/
def Memory.clear {T : Type} (m : Memory T) : Memory T :=
  { m with messages := [] }

/-- `Memory.shiftTime`: `this.timeOffset += minutes`. -/
def Memory.shiftTime {T : Type} (m : Memory T) (minutes : Int) : Memory T :=
  { m with timeOffset := m.timeOffset + minutes }

/-- The JS falsiness test `!content` on the summarizer's reply: true for a
null/absent content and for the empty string. -/
def contentFalsy : Option String → Bool
  | none => true
  | some s => s.isEmpty

/-- What one call to `Memory.enshrine` did: the returned summary or the
thrown `EmptySummaryError`, the store as the call left it, and whether the
summarizer backend was invoked at all. -/
structure EnshrineOutcome (T : Type) where
  result : Except String String
  store : Memory T
  backendCalled : Bool
deriving Repr

/-- `Memory.enshrine`: on an empty store, return `""` without calling the
backend.  Otherwise ask the backend for a summary; `!content` throws
`"No summary from OpenAI"` (the store untouched), and on success the store
itself is reset to `{}` before the summary is returned. -/
def Memory.enshrine {T : Type} (m : Memory T) (backend : Option String) :
    EnshrineOutcome T :=
  if m.messages.isEmpty then
    { result := .ok "", store := m, backendCalled := false }
  else
    match backend with
    | none => { result := .error "No summary from OpenAI", store := m, backendCalled := true }
    | some content =>
        if content.isEmpty then
          { result := .error "No summary from OpenAI", store := m, backendCalled := true }
        else
          { result := .ok content, store := { m with messages := [] }, backendCalled := true }

/-- Whether every stored key lies strictly below the key the store would
use at clock `bound` — the freshness invariant `Date.now()` maintains for
entries written in the past. -/
def Memory.keysBelow {T : Type} (m : Memory T) (bound : Int) : Prop :=
  ∀ p ∈ m.messages, p.1 < bound + m.timeOffset * 60000

instance {T : Type} (m : Memory T) (bound : Int) : Decidable (m.keysBelow bound) :=
  List.decidableBAll _ m.messages

/-! ## Tool registry

The built-in tools of the current revision of `tools.ts`: `sleep` (whose
outcome pairs the string `"sleeping"` with a deferred effect that enshrines
and then sets `sleepUntil`), `requestNewTool`, `plan` and `reportIssue`
(plain string results).  Adapter-contributed tools are abstracted as
plain-string tools (`adapterTool`), which is all the Tool/Adapter contract
lets them be: textual results, no exceptions. -/

/-- A registered capability: the four built-ins, or an adapter tool with
its (externally produced) textual result. -/
inductive ToolSpec
  | sleep
  | requestNewTool
  | plan
  | reportIssue
  | adapterTool (toolName : String) (answer : String)
deriving DecidableEq, Repr

/-- The `name` field each tool declares. -/
def ToolSpec.name : ToolSpec → String
  | .sleep => "sleep"
  | .requestNewTool => "requestNewTool"
  | .plan => "plan"
  | .reportIssue => "reportIssue"
  | .adapterTool n _ => n

/-- `TOOLS`: the global built-in tool list. -/
def TOOLS : List ToolSpec :=
  [.sleep, .requestNewTool, .plan, .reportIssue]

/-- The outcome of `tool.execute`: a plain string, or — for the sleep tool —
the pair of the string `"sleeping"` and the deferred enshrine-then-set
effect carrying the parsed `until` timestamp. -/
inductive ToolOutcome
  | plain (s : String)
  | sleeping (untilT : Int)
deriving DecidableEq, Repr

/-- `tool.execute(entity, parameters)`, per tool.  Only the sleep tool
returns a `(string, deferred)` pair; the rest return their fixed strings
(`"Tool requested"`, `"Task planned"`, `"Issue reported"`), and adapter
tools their external answer. -/
def ToolSpec.execute : ToolSpec → ToolCall → ToolOutcome
  | .sleep, tc => .sleeping tc.argUntil
  | .requestNewTool, _ => .plain "Tool requested"
  | .plan, _ => .plain "Task planned"
  | .reportIssue, _ => .plain "Issue reported"
  | .adapterTool _ ans, _ => .plain ans

/-- An adapter: a named bundle of tools. -/
structure AdapterSpec where
  adapterName : String
  tools : List ToolSpec
deriving DecidableEq, Repr

/-! ## Entity -/

/-- The entity state: both memory tiers, the enabled adapters, the
simulated-time offset (minutes), the nullable wake timestamp, and the
per-run turn budget. -/
structure Entity where
  id : String
  model : String
  stm : Memory ChatMsg
  ltm : Memory String
  adapters : List AdapterSpec
  timeOffset : Int
  sleepUntil : Option Int
  maxMessages : Nat
deriving DecidableEq, Repr

/-- `EntityOptions` as passed to the constructor: the optional fields may
be absent.  A `some 0` for a numeric field embeds an explicit falsy `0`. -/
structure EntityOptions where
  id : String
  model : String
  stm : Memory ChatMsg
  ltm : Memory String
  maxMessages : Option Nat := none
  adapters : Option (List AdapterSpec) := none
  timeOffset : Option Int := none
  sleepUntil : Option Int := none
deriving DecidableEq, Repr

/-- The `Entity` constructor: each `if (!options.field)` default.  A JS
falsy numeric field (absent or `0`) is replaced: `timeOffset` by `0`,
`maxMessages` by `20`; absent `adapters` by `[]`; a falsy `sleepUntil` by
`null`. -/
def Entity.ofOptions (o : EntityOptions) : Entity :=
  { id := o.id
    model := o.model
    stm := o.stm
    ltm := o.ltm
    adapters := o.adapters.getD []
    timeOffset := o.timeOffset.getD 0
    sleepUntil := o.sleepUntil
    maxMessages :=
      match o.maxMessages with
      | none => 20
      | some n => if n = 0 then 20 else n }

/-- `Entity.getCurrentTime`: `Date.now() + timeOffset * 60 * 1000`. -/
def Entity.getCurrentTime (e : Entity) (now : Int) : Int :=
  now + e.timeOffset * 60000

/-- The tool registry a run exposes: the adapters' tools then the global
built-ins. -/
def Entity.tools (e : Entity) : List ToolSpec :=
  (e.adapters.flatMap fun a => a.tools) ++ TOOLS

/-- The observable effects of a run, in the order the source statements
execute.  `modelCall` is one backend completion request (one turn);
`deferredRun` is the invocation of a tool outcome's deferred closure;
`sleepScheduled t` records the deferred sleep effect setting
`sleepUntil := t`. -/
inductive Event
  | modelCall
  | stmAdd (msg : ChatMsg)
  | toolExec (toolName : String)
  | deferredRun
  | ltmAdd (entry : String)
  | sleepScheduled (t : Int)
deriving DecidableEq, Repr

/-- `Entity.enshrine`: `stm.enshrine()`, then `ltm.add(result)` —
unconditionally, also when the summary is the empty string — then
`stm.clear()`.  The thrown `EmptySummaryError` propagates. -/
def Entity.enshrine (e : Entity) (backend : Option String) (now : Int) :
    Except String (Entity × Int × List Event) :=
  match (e.stm.enshrine backend).result with
  | .error msg => .error msg
  | .ok summary =>
      .ok ({ e with stm := (e.stm.enshrine backend).store.clear,
                    ltm := e.ltm.add now summary },
           now + 10, [.ltmAdd summary])

/-- The state after storing the model's response message in short-term
memory (`await this.options.stm.add(response.choices[0].message)`). -/
def afterModelMsg (e : Entity) (r : ModelResponse) (now : Int) : Entity :=
  { e with stm := e.stm.add now r.message }

/-- The tool-role result message the dispatcher appends to STM. -/
def toolResultMsg (s : String) (cid : String) : ChatMsg :=
  { role := .tool, content := s, tool_call_id := some cid }

/-- The state after a turn has stored the model's message and then the
tool's result string as a tool-role message. -/
def afterToolMsg (e : Entity) (r : ModelResponse) (now : Int) (s cid : String) : Entity :=
  { afterModelMsg e r now with
      stm := (afterModelMsg e r now).stm.add (now + 10) (toolResultMsg s cid) }

/-- One iteration of the `run()` while-loop after the backend call: store
the response message; if it requested tool invocations, take the *first*
one only, resolve its name in the registry (`continue` on a miss, with no
tool result recorded), execute it, append the result string to STM as a
tool-role message, then — for a `(string, deferred)` outcome — invoke the
deferred effect (for sleep: enshrine, then set `sleepUntil`). -/
def runTurn (tools : List ToolSpec) (backend : Option String)
    (r : ModelResponse) (e : Entity) (now : Int) :
    Except String (Entity × Int × List Event) :=
  match r.tool_calls with
  | [] => .ok (afterModelMsg e r now, now + 10, [.modelCall, .stmAdd r.message])
  | tc :: _ =>
      match tools.find? (fun t => t.name == tc.name) with
      | none => .ok (afterModelMsg e r now, now + 10, [.modelCall, .stmAdd r.message])
      | some t =>
          match t.execute tc with
          | .plain s =>
              .ok (afterToolMsg e r now s tc.id, now + 20,
                   [.modelCall, .stmAdd r.message, .toolExec t.name,
                    .stmAdd (toolResultMsg s tc.id)])
          | .sleeping untilT =>
              match (afterToolMsg e r now "sleeping" tc.id).enshrine backend (now + 20) with
              | .error msg => .error msg
              | .ok (e₃, now₃, evE) =>
                  .ok ({ e₃ with sleepUntil := some untilT }, now₃,
                       [.modelCall, .stmAdd r.message, .toolExec t.name,
                        .stmAdd (toolResultMsg "sleeping" tc.id),
                        .deferredRun] ++ evE ++ [.sleepScheduled untilT])

/-- The `run()` while-loop: `while (sleepUntil === null && i < maxMessages)`.
Each iteration consumes the next scripted backend response; the script
running out ends the loop (the backend yields nothing further). -/
def runLoop (tools : List ToolSpec) (backend : Option String) (mm : Nat) :
    List ModelResponse → Nat → Entity → Int → List Event →
    Except String (Entity × Int × List Event)
  | [], _, e, now, tr => .ok (e, now, tr)
  | r :: rest, i, e, now, tr =>
      if e.sleepUntil = none ∧ i < mm then
        match runTurn tools backend r e now with
        | .error msg => .error msg
        | .ok (e₂, now₂, ev) => runLoop tools backend mm rest (i + 1) e₂ now₂ (tr ++ ev)
      else .ok (e, now, tr)

/-- The synthetic system message `run()` appends before the loop. -/
def wakeUpMessage : ChatMsg :=
  { role := .system
    content := "You are being woken up from sleep. Check on things and continue towards your goals."
    tool_call_id := none }

/-- The state at the top of `run()`: Awake is forced
(`this.options.sleepUntil = null`) and the wake-up system message is
appended to STM. -/
def runStart (e : Entity) (now : Int) : Entity :=
  { e with sleepUntil := none, stm := e.stm.add now wakeUpMessage }

/-- `Entity.run`: force Awake (`sleepUntil = null`), collect the tool
registry, append the wake-up message to STM, then the turn loop.  The
trailing file export is I/O with no state effect and is not modelled. -/
def Entity.run (e : Entity) (responses : List ModelResponse)
    (backend : Option String) (now : Int) :
    Except String (Entity × Int × List Event) :=
  runLoop e.tools backend e.maxMessages responses 0 (runStart e now) (now + 10)
    [.stmAdd wakeUpMessage]

/-- What one `checkWakeup()` call did: whether it invoked `run()`, and the
resulting state (unchanged, with an empty trace, on the dormant branch). -/
structure WakeCheck where
  invokedRun : Bool
  result : Except String (Entity × Int × List Event)

/-- `Entity.checkWakeup` (current revision): a null/undefined `sleepUntil`
runs immediately; otherwise run exactly when
`getCurrentTime() >= sleepUntil`; else only log. -/
def Entity.checkWakeup (e : Entity) (responses : List ModelResponse)
    (backend : Option String) (now : Int) : WakeCheck :=
  match e.sleepUntil with
  | none => { invokedRun := true, result := e.run responses backend now }
  | some t =>
      if e.getCurrentTime now ≥ t then
        { invokedRun := true, result := e.run responses backend now }
      else
        { invokedRun := false, result := .ok (e, now, []) }

/-! ## Scheduler / concurrency guard

`checkEntitiesForWakeup` with the process-local `runningEntityIds` set.
The per-id scan body is synchronous up to starting the run (`scanOne`);
the run's settlement — the `.catch(...).finally(() => delete)` — is a
separate later step (`runSettle`), so the interleaving where a second scan
observes an in-flight run is the state between the two. -/

/-- What the scan reads of one persisted entity: its id, wake timestamp
and offset. -/
structure EntityRef where
  refId : String
  sleepUntil : Option Int
  timeOffset : Int
deriving DecidableEq, Repr

/-- The scan's wake test:
`sleepUntil === null || (sleepUntil && getCurrentTime() >= sleepUntil)`. -/
def wakeDue (r : EntityRef) (now : Int) : Bool :=
  match r.sleepUntil with
  | none => true
  | some t => now + r.timeOffset * 60000 ≥ t

/-- The process-local guard: the ids with an in-flight run. -/
structure SchedState where
  running : List String
deriving DecidableEq, Repr

/-- The scheduler's observable actions. -/
inductive SchedEvent
  | skipped (schedId : String)
  | runStarted (schedId : String)
  | notDue (schedId : String)
  | runSettled (schedId : String) (ok : Bool)
  | removedFromRunning (schedId : String)
deriving DecidableEq, Repr

/-- The scan body for one id: an id already in the running set is skipped
entirely; otherwise, if the entity is due, the id is added to the set and
its run is started (still in flight when `scanOne` returns). -/
def scanOne (now : Int) (st : SchedState × List SchedEvent) (r : EntityRef) :
    SchedState × List SchedEvent :=
  if r.refId ∈ st.1.running then (st.1, st.2 ++ [.skipped r.refId])
  else if wakeDue r now then
    ({ running := r.refId :: st.1.running }, st.2 ++ [.runStarted r.refId])
  else (st.1, st.2 ++ [.notDue r.refId])

/-- One scan over the known entity ids. -/
def checkEntitiesForWakeup (s : SchedState) (ents : List EntityRef) (now : Int) :
    SchedState × List SchedEvent :=
  ents.foldl (scanOne now) (s, [])

/-- The `.finally` handler when a started run settles: the id is removed
from the running set whether the run succeeded or failed. -/
def runSettle (s : SchedState) (runId : String) (ok : Bool) :
    SchedState × List SchedEvent :=
  ({ running := s.running.erase runId }, [.runSettled runId ok, .removedFromRunning runId])

/-! ## Trace observations -/

/-- The number of backend completion requests — turns — in a trace. -/
def countModel (tr : List Event) : Nat :=
  tr.countP fun ev => match ev with | .modelCall => true | _ => false

/-- The number of tool executions in a trace. -/
def countToolExec (tr : List Event) : Nat :=
  tr.countP fun ev => match ev with | .toolExec _ => true | _ => false

/-- The `sleepUntil` values the deferred sleep effect set, in order. -/
def sleepEvents (tr : List Event) : List Int :=
  tr.filterMap fun ev => match ev with | .sleepScheduled t => some t | _ => none

/-- Every invocation of a deferred effect is preceded, strictly earlier in
the trace, by the append of the sleep tool's result string `"sleeping"` to
STM as a tool-role message. -/
def ToolMsgBeforeDeferred (tr : List Event) : Prop :=
  ∀ j : Nat, tr[j]? = some Event.deferredRun →
    ∃ i : Nat, i < j ∧ ∃ cid, tr[i]? = some (Event.stmAdd (toolResultMsg "sleeping" cid))

/-- A response whose first requested invocation names the built-in sleep
capability. -/
def selectsSleep (r : ModelResponse) : Bool :=
  match r.tool_calls with
  | [] => false
  | tc :: _ => tc.name == "sleep"

/-! ## Concrete fixtures for witnesses and counterexamples -/

/-- An empty short-term store. -/
def exEmptyStm : Memory ChatMsg := { messages := [], model := "gpt-4.1-mini", timeOffset := 0 }

/-- An empty long-term store. -/
def exEmptyLtm : Memory String := { messages := [], model := "gpt-4.1-mini", timeOffset := 0 }

/-- An entity with both tiers empty, no adapters, awake, budget 5. -/
def exEntity : Entity :=
  { id := "e1", model := "gpt-4.1-mini", stm := exEmptyStm, ltm := exEmptyLtm,
    adapters := [], timeOffset := 0, sleepUntil := none, maxMessages := 5 }

/-- A response selecting the built-in sleep capability with `until` one
hour after the epoch. -/
def exSleepResponse : ModelResponse :=
  { message := { role := .assistant, content := "going to sleep" }
    tool_calls := [{ id := "call-1", name := "sleep", argUntil := 3600000 }] }

/-- A response selecting the plan capability. -/
def exPlanResponse : ModelResponse :=
  { message := { role := .assistant, content := "planning" }
    tool_calls := [{ id := "call-2", name := "plan" }] }

/-- A response whose first invocation names no registered tool. -/
def exUnknownResponse : ModelResponse :=
  { message := { role := .assistant, content := "calling something" }
    tool_calls := [{ id := "call-3", name := "noSuchTool" }] }

/-- A one-entry chat store at key `0`. -/
def exOneMsgMemory : Memory ChatMsg :=
  { messages := [(0, { role := .user, content := "hello" })], model := "gpt-4.1-mini",
    timeOffset := 0 }

/-- How often the scheduler started a run for a given id. -/
def countRunStarted (runId : String) (evs : List SchedEvent) : Nat :=
  evs.count (SchedEvent.runStarted runId)

/-- The entity `exEntity` after the scripted sleep run
`exEntity.run [exSleepResponse] (some "a summary") 0`. -/
def exSleptEntity : Entity :=
  { id := "e1", model := "gpt-4.1-mini",
    stm := { messages := [], model := "gpt-4.1-mini", timeOffset := 0 },
    ltm := { messages := [(30, "a summary")], model := "gpt-4.1-mini", timeOffset := 0 },
    adapters := [], timeOffset := 0, sleepUntil := some 3600000, maxMessages := 5 }

/-- The trace of that scripted sleep run. -/
def exSleepTrace : List Event :=
  [.stmAdd wakeUpMessage,
   .modelCall,
   .stmAdd { role := .assistant, content := "going to sleep" },
   .toolExec "sleep",
   .stmAdd { role := .tool, content := "sleeping", tool_call_id := some "call-1" },
   .deferredRun,
   .ltmAdd "a summary",
   .sleepScheduled 3600000]

/-- `exEntity` after consolidating its (empty) short-term memory: the
empty summary has been appended to LTM. -/
def exEnshrined : Entity :=
  { exEntity with ltm := { messages := [(0, "")], model := "gpt-4.1-mini", timeOffset := 0 } }

/-- Two distinct messages for the timestamp-collision scenario. -/
def exMsgA : ChatMsg := { role := .user, content := "first message" }

/-- See `exMsgA`. -/
def exMsgB : ChatMsg := { role := .user, content := "second message" }

/-- A store already holding `exMsgA` at the key that clock `0` produces. -/
def exCollideMem : Memory ChatMsg :=
  { messages := [(0, exMsgA)], model := "gpt-4.1-mini", timeOffset := 0 }

/-- A dormant entity (sleeping until one hour past the epoch). -/
def exSleepingEntity : Entity := { exEntity with sleepUntil := some 3600000 }

/-- A persisted-entity reference for the scheduler scenarios. -/
def exRef : EntityRef := { refId := "e1", sleepUntil := none, timeOffset := 0 }

/-- Constructor options with every optional field absent. -/
def exOptions : EntityOptions :=
  { id := "e2", model := "gpt-4.1-mini", stm := exEmptyStm, ltm := exEmptyLtm }

/-! ## Basic lemmas about the store -/

/-- Membership after a JS-object insert: the new pair, or an original one. -/
theorem mem_mapInsert {T : Type} {k : Int} {v : T} {l : List (Int × T)} {p : Int × T}
    (h : p ∈ mapInsert k v l) : p = (k, v) ∨ p ∈ l := by
  induction l with
  | nil => simpa [mapInsert] using h
  | cons q rest ih =>
      obtain ⟨k₁, v₁⟩ := q
      rw [mapInsert] at h
      by_cases hq : k₁ = k
      · rw [if_pos hq] at h
        rcases List.mem_cons.mp h with h | h
        · exact Or.inl h
        · exact Or.inr (List.mem_cons_of_mem _ h)
      · rw [if_neg hq] at h
        rcases List.mem_cons.mp h with h | h
        · exact Or.inr (h ▸ List.mem_cons_self _ _)
        · rcases ih h with h' | h'
          · exact Or.inl h'
          · exact Or.inr (List.mem_cons_of_mem _ h')

/-- Inserting a key no stored pair carries appends: the size grows by one. -/
theorem mapInsert_length_of_fresh {T : Type} {k : Int} {v : T} {l : List (Int × T)}
    (h : ∀ p ∈ l, p.1 ≠ k) : (mapInsert k v l).length = l.length + 1 := by
  induction l with
  | nil => rfl
  | cons q rest ih =>
      obtain ⟨k₁, v₁⟩ := q
      rw [mapInsert, if_neg (h (k₁, v₁) (List.mem_cons_self _ _))]
      simp only [List.length_cons]
      rw [ih fun p hp => h p (List.mem_cons_of_mem _ hp)]

/-- The freshness bound is monotone in the clock. -/
theorem Memory.keysBelow_mono {T : Type} {m : Memory T} {a b : Int}
    (h : m.keysBelow a) (hab : a ≤ b) : m.keysBelow b :=
  fun p hp => lt_of_lt_of_le (h p hp) (by omega)

/-- An append at a clock all stored keys lie strictly below grows the store
by exactly one entry. -/
theorem Memory.add_length_of_keysBelow {T : Type} {m : Memory T} {now : Int} {msg : T}
    (h : m.keysBelow now) : (m.add now msg).messages.length = m.messages.length + 1 := by
  exact mapInsert_length_of_fresh fun p hp => ne_of_lt (h p hp)

/-- Appending below the freshness bound preserves it. -/
theorem Memory.add_keysBelow {T : Type} {m : Memory T} {now bound : Int} {msg : T}
    (h : m.keysBelow bound) (hlt : now < bound) : (m.add now msg).keysBelow bound := by
  intro p hp
  rcases mem_mapInsert hp with h' | h'
  · subst h'
    simp only [Memory.add, Memory.getCurrentTime]
    omega
  · exact h p h'

/-! ## Trace lemmas -/

/-- A scheduled sleep is in the trace exactly when its timestamp is among
the trace's sleep events. -/
theorem mem_sleepEvents_iff {tr : List Event} {t : Int} :
    t ∈ sleepEvents tr ↔ Event.sleepScheduled t ∈ tr := by
  unfold sleepEvents
  rw [List.mem_filterMap]
  constructor
  · rintro ⟨ev, hmem, hev⟩
    cases ev <;> simp_all
  · intro h
    exact ⟨_, h, rfl⟩

/-- Sleep events split over trace concatenation. -/
theorem sleepEvents_append (l₁ l₂ : List Event) :
    sleepEvents (l₁ ++ l₂) = sleepEvents l₁ ++ sleepEvents l₂ :=
  List.filterMap_append _ _ _

/-- Turn counts split over trace concatenation. -/
theorem countModel_append (l₁ l₂ : List Event) :
    countModel (l₁ ++ l₂) = countModel l₁ + countModel l₂ :=
  List.countP_append _ _ _

/-- The deferred-effect ordering property concatenates. -/
theorem toolMsgBeforeDeferred_append {l₁ l₂ : List Event}
    (h₁ : ToolMsgBeforeDeferred l₁) (h₂ : ToolMsgBeforeDeferred l₂) :
    ToolMsgBeforeDeferred (l₁ ++ l₂) := by
  intro j hj
  by_cases hlt : j < l₁.length
  · rw [List.getElem?_append_left hlt] at hj
    obtain ⟨i, hij, cid, hi⟩ := h₁ j hj
    exact ⟨i, hij, cid, by rw [List.getElem?_append_left (hij.trans hlt)]; exact hi⟩
  · rw [List.getElem?_append_right (Nat.le_of_not_lt hlt)] at hj
    obtain ⟨i, hij, cid, hi⟩ := h₂ _ hj
    refine ⟨l₁.length + i, by omega, cid, ?_⟩
    rw [List.getElem?_append_right (Nat.le_add_right _ _)]
    simpa using hi

/-- A trace without a deferred-effect invocation satisfies the ordering
property vacuously. -/
theorem toolMsgBeforeDeferred_of_not_mem {l : List Event}
    (h : Event.deferredRun ∉ l) : ToolMsgBeforeDeferred l := by
  intro j hj
  exact absurd (List.getElem?_mem hj) h

/-! ## Consolidation lemmas -/

/-- A successful `Entity.enshrine` characterized: STM drained, LTM grown by
exactly one entry (fresh key), the clock advanced, one `ltmAdd` event, the
wake state untouched. -/
theorem Entity.enshrine_ok {e e' : Entity} {b : Option String} {now now' : Int}
    {ev : List Event} (hk : e.ltm.keysBelow now)
    (h : e.enshrine b now = .ok (e', now', ev)) :
    e'.stm.messages = [] ∧
    e'.ltm.messages.length = e.ltm.messages.length + 1 ∧
    now' = now + 10 ∧ (∃ s, ev = [Event.ltmAdd s]) ∧
    e'.sleepUntil = e.sleepUntil ∧ e'.maxMessages = e.maxMessages ∧
    e'.ltm.keysBelow now' := by
  unfold Entity.enshrine at h
  cases hres : (e.stm.enshrine b).result with
  | error msg => rw [hres] at h; exact absurd h (by simp)
  | ok summary =>
      rw [hres] at h
      simp only [Except.ok.injEq, Prod.mk.injEq] at h
      obtain ⟨he, hn, hev⟩ := h
      subst he hn hev
      refine ⟨rfl, Memory.add_length_of_keysBelow hk, rfl, ⟨summary, rfl⟩, rfl, rfl, ?_⟩
      exact Memory.add_keysBelow (Memory.keysBelow_mono hk (by omega)) (by omega)

/-! ## Turn equations

The branches of `runTurn` exposed as rewriting equations, one per shape of
the dispatch. -/

/-- A turn with no requested tool invocations only stores the model's
message. -/
theorem runTurn_nil (tools : List ToolSpec) (b : Option String) (e : Entity)
    (now : Int) {r : ModelResponse} (h : r.tool_calls = []) :
    runTurn tools b r e now =
      .ok (afterModelMsg e r now, now + 10, [.modelCall, .stmAdd r.message]) := by
  simp only [runTurn, h]

/-- A turn whose first invocation resolves to no registered tool skips the
tool step (`continue`). -/
theorem runTurn_unresolved (tools : List ToolSpec) (b : Option String) (e : Entity)
    (now : Int) {r : ModelResponse} {tc : ToolCall} {tl : List ToolCall}
    (h : r.tool_calls = tc :: tl)
    (hf : tools.find? (fun t => t.name == tc.name) = none) :
    runTurn tools b r e now =
      .ok (afterModelMsg e r now, now + 10, [.modelCall, .stmAdd r.message]) := by
  simp only [runTurn, h, hf]

/-- A turn executing a plain-result tool. -/
theorem runTurn_plain (tools : List ToolSpec) (b : Option String) (e : Entity)
    (now : Int) {r : ModelResponse} {tc : ToolCall} {tl : List ToolCall}
    {t : ToolSpec} {s : String}
    (h : r.tool_calls = tc :: tl)
    (hf : tools.find? (fun t => t.name == tc.name) = some t)
    (hex : t.execute tc = .plain s) :
    runTurn tools b r e now =
      .ok (afterToolMsg e r now s tc.id, now + 20,
           [.modelCall, .stmAdd r.message, .toolExec t.name,
            .stmAdd (toolResultMsg s tc.id)]) := by
  simp only [runTurn, h, hf, hex]

/-- A turn executing the sleep tool whose deferred consolidation succeeds. -/
theorem runTurn_sleeping_ok (tools : List ToolSpec) (b : Option String) (e : Entity)
    (now : Int) {r : ModelResponse} {tc : ToolCall} {tl : List ToolCall}
    {t : ToolSpec} {untilT : Int} {e₃ : Entity} {now₃ : Int} {evE : List Event}
    (h : r.tool_calls = tc :: tl)
    (hf : tools.find? (fun t => t.name == tc.name) = some t)
    (hex : t.execute tc = .sleeping untilT)
    (hensh : (afterToolMsg e r now "sleeping" tc.id).enshrine b (now + 20) =
      .ok (e₃, now₃, evE)) :
    runTurn tools b r e now =
      .ok ({ e₃ with sleepUntil := some untilT }, now₃,
           [.modelCall, .stmAdd r.message, .toolExec t.name,
            .stmAdd (toolResultMsg "sleeping" tc.id),
            .deferredRun] ++ evE ++ [.sleepScheduled untilT]) := by
  simp only [runTurn, h, hf, hex, hensh]

/-- A turn executing the sleep tool whose deferred consolidation throws:
the error propagates out of the run. -/
theorem runTurn_sleeping_error (tools : List ToolSpec) (b : Option String) (e : Entity)
    (now : Int) {r : ModelResponse} {tc : ToolCall} {tl : List ToolCall}
    {t : ToolSpec} {untilT : Int} {msg : String}
    (h : r.tool_calls = tc :: tl)
    (hf : tools.find? (fun t => t.name == tc.name) = some t)
    (hex : t.execute tc = .sleeping untilT)
    (hensh : (afterToolMsg e r now "sleeping" tc.id).enshrine b (now + 20) = .error msg) :
    runTurn tools b r e now = .error msg := by
  simp only [runTurn, h, hf, hex, hensh]

/-- A found tool carries the searched name. -/
theorem find_name_eq {tools : List ToolSpec} {tc : ToolCall} {t : ToolSpec}
    (hf : tools.find? (fun t => t.name == tc.name) = some t) : t.name = tc.name := by
  have ht := List.find?_some hf
  simpa [beq_iff_eq] using ht

/-- A tool whose execution yields the deferred sleep outcome is the
built-in sleep tool. -/
theorem execute_sleeping_eq {t : ToolSpec} {tc : ToolCall} {untilT : Int}
    (hex : t.execute tc = .sleeping untilT) : t = ToolSpec.sleep ∧ untilT = tc.argUntil := by
  cases t <;> simp_all [ToolSpec.execute]

/-! ## Turn lemmas -/

/-- A turn whose response does not put the sleep capability first always
succeeds, issues exactly one backend call, and leaves the wake state and
the long-term store untouched. -/
theorem runTurn_no_sleep {tools : List ToolSpec} {b : Option String}
    {r : ModelResponse} {e : Entity} {now : Int}
    (hr : selectsSleep r = false) :
    ∃ e' now' ev, runTurn tools b r e now = .ok (e', now', ev) ∧
      e'.sleepUntil = e.sleepUntil ∧ countModel ev = 1 ∧ now ≤ now' ∧
      e'.ltm = e.ltm := by
  cases hcalls : r.tool_calls with
  | nil =>
      refine ⟨_, _, _, runTurn_nil tools b e now hcalls, rfl, ?_, by omega, rfl⟩
      simp [countModel]
  | cons tc tl =>
      have hname : tc.name ≠ "sleep" := by
        unfold selectsSleep at hr
        rw [hcalls] at hr
        simpa using hr
      cases hfind : tools.find? (fun t => t.name == tc.name) with
      | none =>
          refine ⟨_, _, _, runTurn_unresolved tools b e now hcalls hfind, rfl, ?_, by omega, rfl⟩
          simp [countModel]
      | some t =>
          cases hex : t.execute tc with
          | plain s =>
              refine ⟨_, _, _, runTurn_plain tools b e now hcalls hfind hex, ?_, ?_, by omega, ?_⟩
              · simp [afterToolMsg, afterModelMsg]
              · simp [countModel]
              · simp [afterToolMsg, afterModelMsg]
          | sleeping untilT =>
              obtain ⟨ht, -⟩ := execute_sleeping_eq hex
              subst ht
              exact absurd (find_name_eq hfind).symm hname

/-- A successful turn characterized: the clock moves forward, exactly one
backend call is issued, the deferred-effect ordering holds among the turn's
events, the long-term freshness invariant is maintained, and either the
turn did not run the deferred sleep effect (wake state and LTM untouched)
or it did (STM drained, LTM grown by exactly one, `sleepUntil` set to the
scheduled timestamp). -/
theorem runTurn_ok_cases {tools : List ToolSpec} {b : Option String}
    {r : ModelResponse} {e e' : Entity} {now now' : Int} {ev : List Event}
    (hk : e.ltm.keysBelow now)
    (h : runTurn tools b r e now = .ok (e', now', ev)) :
    now ≤ now' ∧ countModel ev = 1 ∧ ToolMsgBeforeDeferred ev ∧
    e'.ltm.keysBelow now' ∧
    ((sleepEvents ev = [] ∧ e'.sleepUntil = e.sleepUntil ∧ e'.ltm = e.ltm) ∨
     (∃ T, sleepEvents ev = [T] ∧ e'.sleepUntil = some T ∧ e'.stm.messages = [] ∧
        e'.ltm.messages.length = e.ltm.messages.length + 1)) := by
  cases hcalls : r.tool_calls with
  | nil =>
      rw [runTurn_nil tools b e now hcalls] at h
      simp only [Except.ok.injEq, Prod.mk.injEq] at h
      obtain ⟨he, hn, hev⟩ := h
      subst he hn hev
      refine ⟨by omega, by simp [countModel], toolMsgBeforeDeferred_of_not_mem (by simp),
        Memory.keysBelow_mono hk (by omega),
        Or.inl ⟨by simp [sleepEvents], rfl, rfl⟩⟩
  | cons tc tl =>
      cases hfind : tools.find? (fun t => t.name == tc.name) with
      | none =>
          rw [runTurn_unresolved tools b e now hcalls hfind] at h
          simp only [Except.ok.injEq, Prod.mk.injEq] at h
          obtain ⟨he, hn, hev⟩ := h
          subst he hn hev
          refine ⟨by omega, by simp [countModel], toolMsgBeforeDeferred_of_not_mem (by simp),
            Memory.keysBelow_mono hk (by omega),
            Or.inl ⟨by simp [sleepEvents], rfl, rfl⟩⟩
      | some t =>
          cases hex : t.execute tc with
          | plain s =>
              rw [runTurn_plain tools b e now hcalls hfind hex] at h
              simp only [Except.ok.injEq, Prod.mk.injEq] at h
              obtain ⟨he, hn, hev⟩ := h
              subst he hn hev
              refine ⟨by omega, by simp [countModel], toolMsgBeforeDeferred_of_not_mem (by simp),
                Memory.keysBelow_mono hk (by omega),
                Or.inl ⟨by simp [sleepEvents], rfl, rfl⟩⟩
          | sleeping untilT =>
              cases hensh : (afterToolMsg e r now "sleeping" tc.id).enshrine b (now + 20) with
              | error msg =>
                  rw [runTurn_sleeping_error tools b e now hcalls hfind hex hensh] at h
                  exact absurd h (by simp)
              | ok trip =>
                  obtain ⟨e₃, now₃, evE⟩ := trip
                  rw [runTurn_sleeping_ok tools b e now hcalls hfind hex hensh] at h
                  simp only [Except.ok.injEq, Prod.mk.injEq] at h
                  obtain ⟨he, hn, hev⟩ := h
                  subst he hn hev
                  have hk₂ : (afterToolMsg e r now "sleeping" tc.id).ltm.keysBelow (now + 20) :=
                    Memory.keysBelow_mono hk (by omega)
                  obtain ⟨hstm₃, hlen₃, hnow₃, ⟨smm, hevE⟩, hsleep₃, hmax₃, hkb₃⟩ :=
                    Entity.enshrine_ok hk₂ hensh
                  subst hevE
                  refine ⟨by omega, by simp [countModel], ?_, hkb₃,
                    Or.inr ⟨untilT, by simp [sleepEvents], rfl, hstm₃, hlen₃⟩⟩
                  intro j hj
                  have hjlt : j < 7 := by
                    by_contra hge
                    rw [List.getElem?_eq_none (by simpa using Nat.le_of_not_lt hge)] at hj
                    exact absurd hj (by simp)
                  interval_cases j <;> simp_all
                  exact ⟨3, by omega, tc.id, by simp⟩

/-! ## Loop lemmas -/

/-- Once `sleepUntil` is set the while-condition fails and the loop
returns immediately. -/
theorem runLoop_stopped {tools : List ToolSpec} {b : Option String} {mm : Nat}
    {rs : List ModelResponse} {i : Nat} {e : Entity} {now : Int} {tr : List Event}
    (h : e.sleepUntil ≠ none) :
    runLoop tools b mm rs i e now tr = .ok (e, now, tr) := by
  cases rs with
  | nil => rfl
  | cons r rest =>
      simp only [runLoop]
      rw [if_neg fun hc => h hc.1]

/-- The loop invariant: a successful run of the remaining turns moves the
clock forward, issues at most the remaining budget of backend calls,
preserves the deferred-effect ordering of the trace, maintains the
long-term freshness invariant, and either never ran the deferred sleep
effect (wake state and LTM as at entry) or ran it exactly once (STM
drained, LTM grown by exactly one entry, `sleepUntil` set to the scheduled
timestamp, which the trace records). -/
theorem runLoop_ok_cases {tools : List ToolSpec} {b : Option String} {mm : Nat} :
    ∀ (rs : List ModelResponse) (i : Nat) (e : Entity) (now : Int) (tr : List Event)
      (e' : Entity) (now' : Int) (tr' : List Event),
      e.ltm.keysBelow now →
      runLoop tools b mm rs i e now tr = .ok (e', now', tr') →
      now ≤ now' ∧ countModel tr' ≤ countModel tr + (mm - i) ∧
      (ToolMsgBeforeDeferred tr → ToolMsgBeforeDeferred tr') ∧
      e'.ltm.keysBelow now' ∧
      ((sleepEvents tr' = sleepEvents tr ∧ e'.sleepUntil = e.sleepUntil ∧ e'.ltm = e.ltm) ∨
       (∃ T, sleepEvents tr' = sleepEvents tr ++ [T] ∧ e'.sleepUntil = some T ∧
          e'.stm.messages = [] ∧ e'.ltm.messages.length = e.ltm.messages.length + 1)) := by
  intro rs
  induction rs with
  | nil =>
      intro i e now tr e' now' tr' hk h
      simp only [runLoop, Except.ok.injEq, Prod.mk.injEq] at h
      obtain ⟨he, hn, hev⟩ := h
      subst he hn hev
      exact ⟨le_refl _, by omega, fun x => x, hk, Or.inl ⟨rfl, rfl, rfl⟩⟩
  | cons r rest ih =>
      intro i e now tr e' now' tr' hk h
      simp only [runLoop] at h
      by_cases hc : e.sleepUntil = none ∧ i < mm
      · rw [if_pos hc] at h
        cases hrt : runTurn tools b r e now with
        | error msg =>
            rw [hrt] at h
            have h' : (Except.error msg : Except String (Entity × Int × List Event)) =
                .ok (e', now', tr') := h
            exact absurd h' (by simp)
        | ok trip =>
            obtain ⟨e₂, now₂, ev⟩ := trip
            rw [hrt] at h
            have h' : runLoop tools b mm rest (i + 1) e₂ now₂ (tr ++ ev) =
                .ok (e', now', tr') := h
            obtain ⟨hnow₂, hcnt₂, htm₂, hkb₂, hdix⟩ := runTurn_ok_cases hk hrt
            rcases hdix with ⟨hse, hsu, hltm⟩ | ⟨T, hse, hsu, hstm, hlen⟩
            · obtain ⟨hnow', hcnt', htm', hkb', hdix'⟩ :=
                ih (i + 1) e₂ now₂ (tr ++ ev) e' now' tr' hkb₂ h'
              refine ⟨by omega, ?_, ?_, hkb', ?_⟩
              · rw [countModel_append, hcnt₂] at hcnt'
                omega
              · intro htr
                exact htm' (toolMsgBeforeDeferred_append htr htm₂)
              · rcases hdix' with ⟨hse', hsu', hltm'⟩ | ⟨T, hse', hsu', hstm', hlen'⟩
                · exact Or.inl ⟨by rw [hse', sleepEvents_append, hse, List.append_nil],
                    by rw [hsu', hsu], by rw [hltm', hltm]⟩
                · exact Or.inr ⟨T, by rw [hse', sleepEvents_append, hse, List.append_nil],
                    hsu', hstm', by rw [hlen', hltm]⟩
            · rw [runLoop_stopped (by rw [hsu]; exact fun hx => Option.noConfusion hx)] at h'
              simp only [Except.ok.injEq, Prod.mk.injEq] at h'
              obtain ⟨he, hn, hev⟩ := h'
              subst he hn hev
              refine ⟨hnow₂, ?_, fun htr => toolMsgBeforeDeferred_append htr htm₂, hkb₂,
                Or.inr ⟨T, by rw [sleepEvents_append, hse], hsu, hstm, hlen⟩⟩
              rw [countModel_append, hcnt₂]
              omega
      · rw [if_neg hc] at h
        simp only [Except.ok.injEq, Prod.mk.injEq] at h
        obtain ⟨he, hn, hev⟩ := h
        subst he hn hev
        exact ⟨le_refl _, by omega, fun x => x, hk, Or.inl ⟨rfl, rfl, rfl⟩⟩

/-- A script that never puts the sleep capability first always completes
the loop without error, preserves the wake state, and stays within the
remaining turn budget. -/
theorem runLoop_no_sleep {tools : List ToolSpec} {b : Option String} {mm : Nat} :
    ∀ (rs : List ModelResponse) (i : Nat) (e : Entity) (now : Int) (tr : List Event),
      (∀ r ∈ rs, selectsSleep r = false) →
      ∃ e' now' tr', runLoop tools b mm rs i e now tr = .ok (e', now', tr') ∧
        e'.sleepUntil = e.sleepUntil ∧ countModel tr' ≤ countModel tr + (mm - i) := by
  intro rs
  induction rs with
  | nil =>
      intro i e now tr _
      exact ⟨e, now, tr, rfl, rfl, by omega⟩
  | cons r rest ih =>
      intro i e now tr hns
      by_cases hc : e.sleepUntil = none ∧ i < mm
      · obtain ⟨e₂, now₂, ev, hrt, hsu₂, hcnt₂, -, -⟩ :=
          @runTurn_no_sleep tools b r e now (hns r (List.mem_cons_self _ _))
        obtain ⟨e', now', tr', hrl, hsu', hcnt'⟩ :=
          ih (i + 1) e₂ now₂ (tr ++ ev) fun x hx => hns x (List.mem_cons_of_mem _ hx)
        refine ⟨e', now', tr', ?_, by rw [hsu', hsu₂], ?_⟩
        · simp only [runLoop]
          rw [if_pos hc, hrt]
          exact hrl
        · rw [countModel_append, hcnt₂] at hcnt'
          omega
      · refine ⟨e, now, tr, ?_, rfl, by omega⟩
        simp only [runLoop]
        rw [if_neg hc]

/-- Turn count of a successful turn, with no freshness hypothesis. -/
theorem runTurn_countModel {tools : List ToolSpec} {b : Option String}
    {r : ModelResponse} {e e' : Entity} {now now' : Int} {ev : List Event}
    (h : runTurn tools b r e now = .ok (e', now', ev)) : countModel ev = 1 := by
  cases hcalls : r.tool_calls with
  | nil =>
      rw [runTurn_nil tools b e now hcalls] at h
      simp only [Except.ok.injEq, Prod.mk.injEq] at h
      rw [← h.2.2]
      simp [countModel]
  | cons tc tl =>
      cases hfind : tools.find? (fun t => t.name == tc.name) with
      | none =>
          rw [runTurn_unresolved tools b e now hcalls hfind] at h
          simp only [Except.ok.injEq, Prod.mk.injEq] at h
          rw [← h.2.2]
          simp [countModel]
      | some t =>
          cases hex : t.execute tc with
          | plain s =>
              rw [runTurn_plain tools b e now hcalls hfind hex] at h
              simp only [Except.ok.injEq, Prod.mk.injEq] at h
              rw [← h.2.2]
              simp [countModel]
          | sleeping untilT =>
              cases hensh : (afterToolMsg e r now "sleeping" tc.id).enshrine b (now + 20) with
              | error msg =>
                  rw [runTurn_sleeping_error tools b e now hcalls hfind hex hensh] at h
                  exact absurd h (by simp)
              | ok trip =>
                  obtain ⟨e₃, now₃, evE⟩ := trip
                  rw [runTurn_sleeping_ok tools b e now hcalls hfind hex hensh] at h
                  simp only [Except.ok.injEq, Prod.mk.injEq] at h
                  obtain ⟨smm, hevE⟩ : ∃ smm, evE = [Event.ltmAdd smm] := by
                    unfold Entity.enshrine at hensh
                    cases hres : ((afterToolMsg e r now "sleeping" tc.id).stm.enshrine b).result with
                    | error m => rw [hres] at hensh; exact absurd hensh (by simp)
                    | ok summary =>
                        rw [hres] at hensh
                        simp only [Except.ok.injEq, Prod.mk.injEq] at hensh
                        exact ⟨summary, hensh.2.2.symm⟩
                  rw [← h.2.2, hevE]
                  simp [countModel]

/-- Turn count bound for the loop, with no freshness hypothesis. -/
theorem runLoop_countModel {tools : List ToolSpec} {b : Option String} {mm : Nat} :
    ∀ (rs : List ModelResponse) (i : Nat) (e : Entity) (now : Int) (tr : List Event)
      (e' : Entity) (now' : Int) (tr' : List Event),
      runLoop tools b mm rs i e now tr = .ok (e', now', tr') →
      countModel tr' ≤ countModel tr + (mm - i) := by
  intro rs
  induction rs with
  | nil =>
      intro i e now tr e' now' tr' h
      simp only [runLoop, Except.ok.injEq, Prod.mk.injEq] at h
      rw [← h.2.2]
      omega
  | cons r rest ih =>
      intro i e now tr e' now' tr' h
      simp only [runLoop] at h
      by_cases hc : e.sleepUntil = none ∧ i < mm
      · rw [if_pos hc] at h
        cases hrt : runTurn tools b r e now with
        | error msg =>
            rw [hrt] at h
            have h' : (Except.error msg : Except String (Entity × Int × List Event)) =
                .ok (e', now', tr') := h
            exact absurd h' (by simp)
        | ok trip =>
            obtain ⟨e₂, now₂, ev⟩ := trip
            rw [hrt] at h
            have h' : runLoop tools b mm rest (i + 1) e₂ now₂ (tr ++ ev) =
                .ok (e', now', tr') := h
            have hcnt' := ih (i + 1) e₂ now₂ (tr ++ ev) e' now' tr' h'
            rw [countModel_append, runTurn_countModel hrt] at hcnt'
            omega
      · rw [if_neg hc] at h
        simp only [Except.ok.injEq, Prod.mk.injEq] at h
        rw [← h.2.2]
        omega

/-! ## Run-level lemmas -/

/-- A successful `run()` characterized: at most `maxMessages` turns, the
deferred-effect ordering holds in the whole trace, and either the sleep
capability's deferred effect never ran (the entity ends Awake with LTM
untouched) or it ran exactly once (STM empty, LTM grown by exactly one,
`sleepUntil` set to the scheduled timestamp the trace records). -/
theorem run_ok_cases {e e' : Entity} {rs : List ModelResponse} {b : Option String}
    {now now' : Int} {tr : List Event}
    (hk : e.ltm.keysBelow now)
    (h : e.run rs b now = .ok (e', now', tr)) :
    now ≤ now' ∧ countModel tr ≤ e.maxMessages ∧ ToolMsgBeforeDeferred tr ∧
    ((sleepEvents tr = [] ∧ e'.sleepUntil = none ∧ e'.ltm = e.ltm) ∨
     (∃ T, sleepEvents tr = [T] ∧ e'.sleepUntil = some T ∧ e'.stm.messages = [] ∧
        e'.ltm.messages.length = e.ltm.messages.length + 1)) := by
  have hk₁ : (runStart e now).ltm.keysBelow (now + 10) :=
    Memory.keysBelow_mono hk (by omega)
  obtain ⟨hnow, hcnt, htm, hkb, hdix⟩ :=
    runLoop_ok_cases rs 0 (runStart e now) (now + 10) [Event.stmAdd wakeUpMessage]
      e' now' tr hk₁ h
  refine ⟨by omega, by simpa [countModel] using hcnt, ?_, ?_⟩
  · exact htm (toolMsgBeforeDeferred_of_not_mem (by simp))
  · rcases hdix with ⟨hse, hsu, hltm⟩ | ⟨T, hse, hsu, hstm, hlen⟩
    · exact Or.inl ⟨by simpa [sleepEvents] using hse, hsu, hltm⟩
    · exact Or.inr ⟨T, by simpa [sleepEvents] using hse, hsu, hstm, hlen⟩

/-- The events of a successful `Entity.enshrine` are exactly one LTM
append. -/
theorem Entity.enshrine_ok_events {e e' : Entity} {b : Option String}
    {now now' : Int} {ev : List Event}
    (h : e.enshrine b now = .ok (e', now', ev)) : ∃ s, ev = [Event.ltmAdd s] := by
  unfold Entity.enshrine at h
  cases hres : (e.stm.enshrine b).result with
  | error m => rw [hres] at h; exact absurd h (by simp)
  | ok summary =>
      rw [hres] at h
      simp only [Except.ok.injEq, Prod.mk.injEq] at h
      exact ⟨summary, h.2.2.symm⟩

/-! ## Scheduler lemmas -/

/-- While an id sits in the running set, a whole scan never starts a run
for it: every occurrence is skipped. -/
theorem scan_skips_running (now : Int) (runId : String) :
    ∀ (ents : List EntityRef) (s : SchedState) (evs : List SchedEvent),
      runId ∈ s.running →
      countRunStarted runId (ents.foldl (scanOne now) (s, evs)).2 =
        countRunStarted runId evs := by
  intro ents
  induction ents with
  | nil => intro s evs _; rfl
  | cons r rest ih =>
      intro s evs hmem
      show countRunStarted runId (rest.foldl (scanOne now) (scanOne now (s, evs) r)).2 = _
      by_cases hr : r.refId ∈ s.running
      · rw [show scanOne now (s, evs) r = (s, evs ++ [SchedEvent.skipped r.refId]) from by
            simp [scanOne, hr]]
        rw [ih s _ hmem]
        simp [countRunStarted, List.count_append]
      · have hne : r.refId ≠ runId := fun he => hr (he ▸ hmem)
        by_cases hw : wakeDue r now
        · rw [show scanOne now (s, evs) r =
                ({ running := r.refId :: s.running }, evs ++ [SchedEvent.runStarted r.refId]) from by
              simp [scanOne, hr, hw]]
          rw [ih _ _ (List.mem_cons_of_mem _ hmem)]
          simp [countRunStarted, List.count_append, List.count_cons, hne]
        · rw [show scanOne now (s, evs) r = (s, evs ++ [SchedEvent.notDue r.refId]) from by
              simp [scanOne, hr, hw]]
          rw [ih s _ hmem]
          simp [countRunStarted, List.count_append]

/-! ## Claim theorems -/

/-- **C3 — counterexample.** On an entity whose STM is empty, the
consolidation sequence still appends (the empty summary) to LTM: LTM goes
from zero entries to one, contradicting "LTM is unchanged when STM was
empty beforehand (the empty summary is skipped, not appended)". -/
theorem enshrine_empty_stm_appends :
    exEntity.stm.messages = [] ∧
    exEntity.ltm.messages.length = 0 ∧
    exEntity.enshrine none 0 = .ok (exEnshrined, 10, [Event.ltmAdd ""]) ∧
    exEnshrined.ltm.messages.length = 1 := by
  refine ⟨rfl, rfl, by decide, rfl⟩

/-- **C3 (amended).** For every entity, after a successful consolidation
sequence (`stm.enshrine()`, append the summary to LTM, clear STM), STM is
empty and the number of LTM entries increases by exactly one — also when
STM was empty beforehand, in which case the new entry is the empty string
(the empty summary is appended, not skipped). -/
theorem enshrine_consolidation (e e' : Entity) (b : Option String) (now now' : Int)
    (ev : List Event) (hk : e.ltm.keysBelow now)
    (h : e.enshrine b now = .ok (e', now', ev)) :
    e'.stm.messages = [] ∧ e'.ltm.messages.length = e.ltm.messages.length + 1 := by
  obtain ⟨h₁, h₂, -, -, -, -, -⟩ := Entity.enshrine_ok hk h
  exact ⟨h₁, h₂⟩

/-- Witness for the amended C3 at a concrete entity. -/
theorem enshrine_consolidation_witness :
    exEnshrined.stm.messages = [] ∧
    exEnshrined.ltm.messages.length = exEntity.ltm.messages.length + 1 :=
  enshrine_consolidation exEntity exEnshrined none 0 10 [Event.ltmAdd ""]
    (by decide) (by decide)

/-- **C4 — counterexample.** On a non-empty store whose summarizer returns
content, `Memory.enshrine` empties the store itself before returning:
immediately after the call the entries are gone, contradicting "the store
still contains the same entries it held before the call". -/
theorem memory_enshrine_empties_store :
    (exOneMsgMemory.enshrine (some "the-summary")).store.messages = [] ∧
    exOneMsgMemory.messages ≠ [] := by
  refine ⟨by decide, by decide⟩

/-- **C4 (amended).** For every non-empty memory store whose backend
returns non-empty content, `Memory.enshrine()` returns the summary text
and clears the store itself (the caller's separate `clear()` is then
redundant); the entries survive the call only on the `EmptySummaryError`
path (and on an empty store, which is left untouched). -/
theorem memory_enshrine_clears_itself {T : Type} (m : Memory T) (c : String)
    (hne : m.messages ≠ []) (hc : ¬ c.isEmpty = true) :
    (m.enshrine (some c)).result = .ok c ∧
    (m.enshrine (some c)).store.messages = [] ∧
    (∀ b, contentFalsy b = true → (m.enshrine b).store = m) := by
  have hm : ¬ m.messages.isEmpty = true := by
    simp only [List.isEmpty_iff]
    exact hne
  refine ⟨?_, ?_, ?_⟩
  · simp only [Memory.enshrine, if_neg hm, if_neg hc]
  · simp only [Memory.enshrine, if_neg hm, if_neg hc]
  · intro b hb
    cases b with
    | none => simp only [Memory.enshrine, if_neg hm]
    | some s =>
        have hs : s.isEmpty = true := by simpa [contentFalsy] using hb
        simp only [Memory.enshrine, if_neg hm, if_pos hs]

/-- Witness for the amended C4 at a concrete one-entry store. -/
theorem memory_enshrine_clears_itself_witness :
    (exOneMsgMemory.enshrine (some "the-summary")).result = .ok "the-summary" :=
  (memory_enshrine_clears_itself exOneMsgMemory "the-summary" (by decide) (by decide)).1

/-- **C5 — the code loses a colliding write.** `Memory.add` stores into a
record keyed by the timestamp alone, so a second message produced in the
same clock tick replaces the first: the store still holds exactly one
entry and the earlier message is gone, where the spec requires both to be
retained. -/
theorem add_collision_overwrites :
    (exCollideMem.add 0 exMsgB).messages = [(0, exMsgB)] ∧
    (exCollideMem.add 0 exMsgB).messages.length = exCollideMem.messages.length ∧
    (0, exMsgA) ∉ (exCollideMem.add 0 exMsgB).messages := by
  refine ⟨by decide, by decide, by decide⟩

/-- **C8.** `Memory.enshrine()` raises `EmptySummaryError` exactly when
the store is non-empty and the backend replies with no content (a null or
empty string); on an empty store it returns the empty summary without
invoking the backend at all. -/
theorem enshrine_error_characterization {T : Type} (m : Memory T) (b : Option String) :
    ((∃ msg, (m.enshrine b).result = .error msg) ↔
       m.messages ≠ [] ∧ contentFalsy b = true) ∧
    (m.messages = [] →
       (m.enshrine b).result = .ok "" ∧ (m.enshrine b).backendCalled = false) := by
  by_cases hm : m.messages.isEmpty = true
  · have hnil : m.messages = [] := List.isEmpty_iff.mp hm
    constructor
    · simp only [Memory.enshrine, if_pos hm]
      constructor
      · rintro ⟨msg, hmsg⟩
        exact absurd hmsg (by simp)
      · rintro ⟨hne, -⟩
        exact absurd hnil hne
    · intro _
      constructor <;> simp [Memory.enshrine, if_pos hm]
  · have hne : m.messages ≠ [] := fun hx => hm (List.isEmpty_iff.mpr hx)
    constructor
    · cases b with
      | none =>
          simp only [Memory.enshrine, if_neg hm]
          exact ⟨fun _ => ⟨hne, rfl⟩, fun _ => ⟨"No summary from OpenAI", rfl⟩⟩
      | some s =>
          by_cases hs : s.isEmpty = true
          · simp only [Memory.enshrine, if_neg hm, if_pos hs]
            refine ⟨fun _ => ⟨hne, by simpa [contentFalsy] using hs⟩,
              fun _ => ⟨"No summary from OpenAI", rfl⟩⟩
          · simp only [Memory.enshrine, if_neg hm, if_neg hs]
            constructor
            · rintro ⟨msg, hmsg⟩
              exact absurd hmsg (by simp)
            · rintro ⟨-, hfalsy⟩
              exact absurd (by simpa [contentFalsy] using hfalsy) hs
    · intro hx
      exact absurd hx hne

/-- Witness for C8 at the concrete empty store. -/
theorem enshrine_error_characterization_witness :
    (exEmptyStm.enshrine none).result = .ok "" ∧
    (exEmptyStm.enshrine none).backendCalled = false :=
  (enshrine_error_characterization exEmptyStm none).2 rfl

/-- **C1.** For every run in which the deferred sleep effect ran with
scheduled timestamp `T` (the script made the model select the built-in
sleep capability with `until = T`) and the summarizer backend returned a
non-empty summary, by the end of that run `sleepUntil = T`, the short-term
memory is empty, and the long-term memory holds exactly one new entry;
moreover the tool's result string `"sleeping"` was appended to STM as a
tool-role message strictly before the deferred enshrine-and-set side
effect was invoked. -/
theorem sleep_run_final_state {e e' : Entity} {rs : List ModelResponse} {s : String}
    {now now' T : Int} {tr : List Event}
    (hs : ¬ s.isEmpty = true)
    (hk : e.ltm.keysBelow now)
    (hrun : e.run rs (some s) now = .ok (e', now', tr))
    (hsel : Event.sleepScheduled T ∈ tr) :
    e'.sleepUntil = some T ∧
    e'.stm.messages = [] ∧
    e'.ltm.messages.length = e.ltm.messages.length + 1 ∧
    ToolMsgBeforeDeferred tr := by
  obtain ⟨-, -, htm, hdix⟩ := run_ok_cases hk hrun
  rcases hdix with ⟨hse, -, -⟩ | ⟨T', hse, hsu, hstm, hlen⟩
  · rw [← mem_sleepEvents_iff, hse] at hsel
    exact absurd hsel (List.not_mem_nil _)
  · rw [← mem_sleepEvents_iff, hse, List.mem_singleton] at hsel
    subst hsel
    exact ⟨hsu, hstm, hlen, htm⟩

/-- Witness for C1: the concrete one-turn sleep run. -/
theorem sleep_run_final_state_witness :
    exSleptEntity.sleepUntil = some 3600000 ∧
    exSleptEntity.stm.messages = [] ∧
    exSleptEntity.ltm.messages.length = exEntity.ltm.messages.length + 1 ∧
    ToolMsgBeforeDeferred exSleepTrace :=
  @sleep_run_final_state exEntity exSleptEntity [exSleepResponse] "a summary" 0 40
    3600000 exSleepTrace (by decide) (by decide) (by decide) (by decide)

/-- **C2.** For every entity, `run()` with a script that never puts the
sleep capability first completes without error in at most `maxMessages`
backend turns, and exhausting the budget leaves `sleepUntil` null: the
Awake state persists. -/
theorem run_respects_turn_budget (e : Entity) (rs : List ModelResponse)
    (b : Option String) (now : Int)
    (hns : ∀ r ∈ rs, selectsSleep r = false) :
    ∃ e' now' tr, e.run rs b now = .ok (e', now', tr) ∧
      countModel tr ≤ e.maxMessages ∧ e'.sleepUntil = none := by
  obtain ⟨e', now', tr', hrl, hsu, hcnt⟩ :=
    runLoop_no_sleep rs 0 (runStart e now) (now + 10) [Event.stmAdd wakeUpMessage] hns
  refine ⟨e', now', tr', hrl, ?_, ?_⟩
  · have h0 : countModel [Event.stmAdd wakeUpMessage] = 0 := rfl
    rw [h0] at hcnt
    omega
  · exact hsu.trans rfl

/-- Witness for C2: a two-turn never-sleeping script within budget 5. -/
theorem run_respects_turn_budget_witness :
    ∃ e' now' tr,
      exEntity.run [exPlanResponse, exPlanResponse] (some "s") 0 = .ok (e', now', tr) ∧
      countModel tr ≤ exEntity.maxMessages ∧ e'.sleepUntil = none :=
  run_respects_turn_budget exEntity [exPlanResponse, exPlanResponse] (some "s") 0 (by decide)

/-- **C6.** `checkWakeup()` invokes `run()` exactly when `sleepUntil` is
unset or the current simulated time has reached or passed it; whenever the
current simulated time is strictly before a set `sleepUntil`, the call is
a no-op: the entity is returned unchanged, with no events and no run. -/
theorem checkWakeup_exact (e : Entity) (rs : List ModelResponse)
    (b : Option String) (now : Int) :
    ((e.checkWakeup rs b now).invokedRun = true ↔
      e.sleepUntil = none ∨ ∃ t, e.sleepUntil = some t ∧ t ≤ e.getCurrentTime now) ∧
    (∀ t, e.sleepUntil = some t → e.getCurrentTime now < t →
      e.checkWakeup rs b now = { invokedRun := false, result := .ok (e, now, []) }) := by
  constructor
  · cases hsu : e.sleepUntil with
    | none => simp [Entity.checkWakeup, hsu]
    | some t =>
        simp only [Entity.checkWakeup, hsu]
        by_cases hge : e.getCurrentTime now ≥ t
        · rw [if_pos hge]
          exact iff_of_true rfl (Or.inr ⟨t, rfl, hge⟩)
        · rw [if_neg hge]
          refine iff_of_false (by simp) ?_
          rintro (hnone | ⟨t', ht', hle⟩)
          · exact Option.noConfusion hnone
          · rw [Option.some.injEq] at ht'
            subst ht'
            omega
  · intro t hsu hlt
    simp only [Entity.checkWakeup, hsu]
    rw [if_neg (by omega)]

/-- Witness for C6: a dormant entity checked before its wake time is
returned untouched. -/
theorem checkWakeup_exact_witness :
    exSleepingEntity.checkWakeup [] none 0 =
      { invokedRun := false, result := .ok (exSleepingEntity, 0, []) } :=
  (checkWakeup_exact exSleepingEntity [] none 0).2 3600000 (by decide) (by decide)

/-- **C7.** In every turn, at most the first requested tool invocation is
executed — every executed tool carries the first invocation's name and
there is at most one execution, whatever further simultaneous invocations
the response carries — and when the first invocation's name resolves to no
registered tool, the tool step is skipped: the turn stores only the
model's message and appends no tool-role result message to STM. -/
theorem first_tool_call_only (tools : List ToolSpec) (b : Option String)
    (r : ModelResponse) (e : Entity) (now : Int) (tc : ToolCall)
    (rest : List ToolCall) (h : r.tool_calls = tc :: rest) :
    (∀ e' now' ev, runTurn tools b r e now = .ok (e', now', ev) →
       countToolExec ev ≤ 1 ∧ ∀ n, Event.toolExec n ∈ ev → n = tc.name) ∧
    (tools.find? (fun t => t.name == tc.name) = none →
       runTurn tools b r e now =
         .ok (afterModelMsg e r now, now + 10,
              [Event.modelCall, Event.stmAdd r.message])) := by
  constructor
  · intro e' now' ev hok
    cases hfind : tools.find? (fun t => t.name == tc.name) with
    | none =>
        rw [runTurn_unresolved tools b e now h hfind] at hok
        simp only [Except.ok.injEq, Prod.mk.injEq] at hok
        rw [← hok.2.2]
        constructor
        · simp [countToolExec]
        · intro n hn
          simp at hn
    | some t =>
        have hname : t.name = tc.name := find_name_eq hfind
        cases hex : t.execute tc with
        | plain s =>
            rw [runTurn_plain tools b e now h hfind hex] at hok
            simp only [Except.ok.injEq, Prod.mk.injEq] at hok
            rw [← hok.2.2]
            constructor
            · simp [countToolExec]
            · intro n hn
              simp at hn
              rw [hn]
              exact hname
        | sleeping untilT =>
            cases hensh : (afterToolMsg e r now "sleeping" tc.id).enshrine b (now + 20) with
            | error msg =>
                rw [runTurn_sleeping_error tools b e now h hfind hex hensh] at hok
                exact absurd hok (by simp)
            | ok trip =>
                obtain ⟨e₃, now₃, evE⟩ := trip
                obtain ⟨smm, hevE⟩ := Entity.enshrine_ok_events hensh
                subst hevE
                rw [runTurn_sleeping_ok tools b e now h hfind hex hensh] at hok
                simp only [Except.ok.injEq, Prod.mk.injEq] at hok
                rw [← hok.2.2]
                constructor
                · simp [countToolExec]
                · intro n hn
                  simp at hn
                  rw [hn]
                  exact hname
  · intro hf
    exact runTurn_unresolved tools b e now h hf

/-- Witness for C7: the concrete turn whose first (and only) invocation
names no registered tool. -/
theorem first_tool_call_only_witness :
    runTurn TOOLS none exUnknownResponse exEntity 0 =
      .ok (afterModelMsg exEntity exUnknownResponse 0, 10,
           [Event.modelCall, Event.stmAdd exUnknownResponse.message]) :=
  (first_tool_call_only TOOLS none exUnknownResponse exEntity 0
    { id := "call-3", name := "noSuchTool", argUntil := 0 } [] rfl).2 (by decide)

/-- **C9.** Within one scheduler process, each entity id has at most one
concurrent run: a scan never starts a run for an id already in the running
set; the `.finally` settlement removes the id from the (duplicate-free)
set whether the run succeeded or failed; and two near-simultaneous wake
checks for a due id — the second arriving while the first's run is in
flight — start exactly one run. -/
theorem scheduler_single_run (runId : String) :
    (∀ (s : SchedState) (ents : List EntityRef) (now : Int), runId ∈ s.running →
       countRunStarted runId (checkEntitiesForWakeup s ents now).2 = 0) ∧
    (∀ (s : SchedState) (ok : Bool), s.running.Nodup →
       runId ∉ (runSettle s runId ok).1.running) ∧
    (∀ (s : SchedState) (r : EntityRef) (now : Int), r.refId = runId →
       runId ∉ s.running → wakeDue r now = true →
       countRunStarted runId
           ((scanOne now (s, []) r).2 ++
            (scanOne now ((scanOne now (s, []) r).1, []) r).2) = 1) := by
  refine ⟨?_, ?_, ?_⟩
  · intro s ents now hmem
    have h := scan_skips_running now runId ents s [] hmem
    simpa [checkEntitiesForWakeup, countRunStarted] using h
  · intro s ok hnd hmem
    simp only [runSettle] at hmem
    exact (hnd.mem_erase_iff.mp hmem).1 rfl
  · intro s r now hrid hmem hdue
    subst hrid
    have h₁ : scanOne now (s, []) r =
        ({ running := r.refId :: s.running }, [SchedEvent.runStarted r.refId]) := by
      simp [scanOne, hmem, hdue]
    have h₂ : scanOne now (({ running := r.refId :: s.running } : SchedState), []) r =
        ({ running := r.refId :: s.running }, [SchedEvent.skipped r.refId]) := by
      simp [scanOne]
    rw [h₁, h₂]
    simp [countRunStarted, List.count_append, List.count_cons]

/-- Witness for C9: on an idle scheduler, two back-to-back wake checks of
the same due id start exactly one run. -/
theorem scheduler_single_run_witness :
    countRunStarted "e1"
        ((scanOne 0 (({ running := [] } : SchedState), []) exRef).2 ++
         (scanOne 0 ((scanOne 0 (({ running := [] } : SchedState), []) exRef).1, []) exRef).2) = 1 :=
  (scheduler_single_run "e1").2.2 { running := [] } exRef 0 rfl (by decide) (by decide)

/-- **C10.** The constructor's defaults: an absent (or explicitly falsy
zero) `maxMessages` becomes 20, so `run()` issues at most 20 backend turns
by default; an absent `timeOffset` becomes 0, absent `adapters` the empty
list, and an absent `sleepUntil` stays null — the entity starts Awake. -/
theorem constructor_defaults (o : EntityOptions)
    (hm : o.maxMessages = none ∨ o.maxMessages = some 0) :
    (Entity.ofOptions o).maxMessages = 20 ∧
    (o.timeOffset = none → (Entity.ofOptions o).timeOffset = 0) ∧
    (o.adapters = none → (Entity.ofOptions o).adapters = []) ∧
    (o.sleepUntil = none → (Entity.ofOptions o).sleepUntil = none) ∧
    (∀ rs b now e' now' tr, (Entity.ofOptions o).run rs b now = .ok (e', now', tr) →
       countModel tr ≤ 20) := by
  have hmm : (Entity.ofOptions o).maxMessages = 20 := by
    rcases hm with hm | hm <;> simp [Entity.ofOptions, hm]
  refine ⟨hmm, ?_, ?_, ?_, ?_⟩
  · intro hx
    simp [Entity.ofOptions, hx]
  · intro hx
    simp [Entity.ofOptions, hx]
  · intro hx
    simp [Entity.ofOptions, hx]
  · intro rs b now e' now' tr hrun
    have hcnt := runLoop_countModel rs 0 (runStart (Entity.ofOptions o) now) (now + 10)
      [Event.stmAdd wakeUpMessage] e' now' tr hrun
    rw [hmm] at hcnt
    have h0 : countModel [Event.stmAdd wakeUpMessage] = 0 := rfl
    rw [h0] at hcnt
    omega

/-- Witness for C10: options with every optional field absent. -/
theorem constructor_defaults_witness :
    (Entity.ofOptions exOptions).maxMessages = 20 :=
  (constructor_defaults exOptions (Or.inl rfl)).1

end Entities
